import Mathlib

/-!
Verification of the MicroPyDatabase paginated storage engine
(src/micropydatabase.py) against its natural-language specification.

The Python source is shallowly embedded: each table operation becomes a
pure Lean function over an explicit table state.  Machine conventions:

* A stored line is an `Option Rec`: `none` is a blank line (just a
  newline), `some rec` is one JSON row record with keys r and d.
* A page file is a `List Line` (its lines in file order); the table's
  directory is an association list from the page's first row id (the
  file name data<first>_<last>.dat encodes the pair, and for a fixed
  rows_per_page the first id determines the last) to its page.
* Python integer arithmetic (floor division and nonnegative remainder
  for positive divisors) is `Int.ediv` and `Int.emod`.
* Python exceptions become explicit `DBError` values.  A mutating
  operation returns the final in-memory state together with an optional
  error, because a raised exception in the source leaves already
  performed mutations (file appends, the current_row increment) in
  place.
* Python equality (==) on stored scalar values, where True == 1 and a
  float compares equal to a numerically equal int, is `pyEq`.
-/

namespace MicroPyDb

/-- Scalar values storable in a row: Python str, int, float, bool and None.
The float payload is carried as an integer identity tag; the engine never
performs float arithmetic, it only type-tags and compares values. -/
inductive Value where
  | vstr : String → Value
  | vint : Int → Value
  | vfloat : Int → Value
  | vbool : Bool → Value
  | vnull : Value
deriving DecidableEq, Repr

/-- Numeric view used by Python ==: bools coerce to 0/1 and the float tag
compares with ints on the shared numeric line. -/
def pyNum : Value → Option Int
  | .vint n => some n
  | .vbool b => some (if b then 1 else 0)
  | .vfloat m => some m
  | _ => none

/-- Python equality on stored scalars. -/
def pyEq (a b : Value) : Bool :=
  match pyNum a, pyNum b with
  | some x, some y => x == y
  | _, _ =>
    match a, b with
    | .vstr s, .vstr t => s == t
    | .vnull, .vnull => true
    | _, _ => false

/-- A row's column data: a Python dict as an insertion-ordered association
list with (in any state the engine produces) no duplicate keys. -/
abbrev RowData := List (String × Value)

/-- Python dict assignment d[k] = v: overwrite in place if the key exists,
otherwise append at the end. -/
def dictSet (d : RowData) (k : String) (v : Value) : RowData :=
  if (List.any d (fun kv => kv.1 == k)) then
    List.map (fun kv => if kv.1 == k then (k, v) else kv) d
  else d ++ [(k, v)]

/-- Python dict.update: fold the updates into the base dict. -/
def dictUpdate (d e : RowData) : RowData :=
  List.foldl (fun acc kv => dictSet acc kv.1 kv.2) d e

/-- One stored row record: the JSON object on one line of a page file. -/
structure Rec where
  r : Int
  d : RowData
deriving DecidableEq, Repr

/-- One line of a page file: blank (a deleted slot) or a record. -/
abbrev Line := Option Rec

/-- A page file's contents, in line order. -/
abbrev Page := List Line

/-- The table's data files: association from a page's first row id to the
page contents, in file creation order (consumers always sort the keys,
matching the source which sorts every directory listing). -/
abbrev Files := List (Int × Page)

/-- Column definition as stored in definition.json: a data_type string and,
meaningful only for str columns, a max_length. -/
structure ColDef where
  dataType : String
  maxLength : Nat
deriving DecidableEq, Repr

/-- The errors the engine raises (Python exceptions made explicit). -/
inductive DBError where
  | unknownColumn : String → DBError
  | typeMismatch : String → DBError
  | lengthExceeded : String → DBError
  | invalidData : DBError
  | tableFull : DBError
  | fileNotFound : Int → DBError
  | rowNotFound : Int → DBError
  | keyError : String → DBError
  | typeError : DBError
  | indexError : DBError
  | writeVerification : DBError
  | noneResult : DBError
  | fuelOut : DBError
deriving DecidableEq, Repr

/-- Decidable equality for operation results, so concrete runs can be
checked by decide. -/
instance {e a : Type} [DecidableEq e] [DecidableEq a] :
    DecidableEq (Except e a) := fun x y =>
  match x, y with
  | Except.ok v, Except.ok w =>
      if h : v = w then isTrue (by rw [h])
      else isFalse (fun hh => by cases hh; exact h rfl)
  | Except.error v, Except.error w =>
      if h : v = w then isTrue (by rw [h])
      else isFalse (fun hh => by cases hh; exact h rfl)
  | Except.ok _, Except.error _ => isFalse (fun hh => by cases hh)
  | Except.error _, Except.ok _ => isFalse (fun hh => by cases hh)

/-- In-memory table state: schema, settings, the current_row counter and
the data page files. -/
structure Table where
  rowsPerPage : Int
  maxRows : Int
  cols : List (String × ColDef)
  currentRow : Int
  files : Files
deriving DecidableEq, Repr

/-! ## Page addressing (Table.__data_file_for_row_id, source lines 746-761) -/

/-- Embeds Table.__data_file_for_row_id's range computation: the closed
range of row ids covered by the page file that holds row_id. -/
def pageRange (P rowId : Int) : Int × Int :=
  let fileRowId := Int.emod rowId P
  if fileRowId == 0 then
    let secondNumber := (Int.ediv rowId P) * P
    let firstNumber := secondNumber - P + 1
    (firstNumber, secondNumber)
  else
    let firstNumber := (Int.ediv rowId P) * P + 1
    let secondNumber := firstNumber + P - 1
    (firstNumber, secondNumber)

/-- The file name returned by Table.__data_file_for_row_id (without the
directory prefix, which is constant per table). -/
def dataFileName (P rowId : Int) : String :=
  "data" ++ toString (pageRange P rowId).1 ++ "_" ++
    toString (pageRange P rowId).2 ++ ".dat"

/-- The key a page file is stored under in our directory model: the first
row id of its range. -/
def pageKey (P rowId : Int) : Int := (pageRange P rowId).1

end MicroPyDb

namespace MicroPyDb

/-! ## Directory primitives -/

/-- Reads a page file; none models OSError on open (file absent). -/
def getPage (fs : Files) (k : Int) : Option Page :=
  List.lookup k fs

/-- Appending a line to a page file opened with mode a+ : creates the file
when absent (new directory entry at the end), else appends to its lines. -/
def appendLine (fs : Files) (k : Int) (l : Line) : Files :=
  match fs with
  | [] => [(k, [l])]
  | (k', pg) :: rest =>
      if k' == k then (k', pg ++ [l]) :: rest
      else (k', pg) :: appendLine rest k l

/-- Replacing a page file's contents (the temp-file-then-rename rewrite). -/
def putPage (fs : Files) (k : Int) (pg : Page) : Files :=
  match fs with
  | [] => [(k, pg)]
  | (k', pg') :: rest =>
      if k' == k then (k', pg) :: rest
      else (k', pg') :: putPage rest k pg

/-- Insertion into an ascending list of keys (helper for the source's
sorted(..., key=int range) directory listings). -/
def insertSorted (x : Int) : List Int → List Int
  | [] => [x]
  | y :: ys => if x ≤ y then x :: y :: ys else y :: insertSorted x ys

/-- Sorts key lists ascending, as sorted(location, key=...) does. -/
def sortKeys (ks : List Int) : List Int :=
  List.foldr insertSorted [] ks

/-- The directory's page keys in ascending range order. -/
def ascKeys (fs : Files) : List Int :=
  sortKeys (List.map (fun kv => kv.1) fs)

/-- The directory's page keys in descending range order
(sorted(..., reverse=True)). -/
def descKeys (fs : Files) : List Int :=
  List.reverse (ascKeys fs)

/-- The non-blank records of a page, in line order. -/
def pageRecs (pg : Page) : List Rec :=
  List.filterMap id pg

/-- The records of the pages named by a key list, in that order. -/
def keysRecs (fs : Files) (ks : List Int) : List Rec :=
  List.foldr (fun k acc => pageRecs ((getPage fs k).getD []) ++ acc) [] ks

/-- All records of the table in ascending page order and ascending line
order within a page (the order scan and vacuum visit them). -/
def tableRecsAsc (t : Table) : List Rec :=
  keysRecs t.files (ascKeys t.files)

/-- All records in descending page order (the order find/query visit
them); lines within a page are still read ascending. -/
def tableRecsDesc (t : Table) : List Rec :=
  keysRecs t.files (descKeys t.files)

/-- All records of a directory without any ordering guarantee. -/
def filesRecs (fs : Files) : List Rec :=
  List.foldr (fun kv acc => pageRecs kv.2 ++ acc) [] fs

/-- All records of the table (directory order). -/
def allRecs (t : Table) : List Rec :=
  filesRecs t.files

end MicroPyDb

namespace MicroPyDb

/-! ## Schema validation (Table.__scrub_data, source lines 778-827) -/

/-- Python str.lower(), modelled over the character list (String.toLower
itself maps Char.toLower over the characters, but through a well-founded
recursion that does not reduce definitionally). -/
def strLower (s : String) : String :=
  String.mk (List.map Char.toLower s.data)

/-- Python isinstance(v, str). -/
def isInstStr : Value → Bool
  | .vstr _ => true
  | _ => false

/-- Python isinstance(v, int): True for bools as well, since bool is a
subclass of int. -/
def isInstInt : Value → Bool
  | .vint _ => true
  | .vbool _ => true
  | _ => false

/-- Python isinstance(v, float). -/
def isInstFloat : Value → Bool
  | .vfloat _ => true
  | _ => false

/-- Python isinstance(v, bool). -/
def isInstBool : Value → Bool
  | .vbool _ => true
  | _ => false

/-- The elif chain of __scrub_data validating one column value against its
declared data_type (and max_length for str). -/
def checkValue (name : String) (cd : ColDef) (v : Value) : Except DBError Unit :=
  if cd.dataType == "str" && isInstStr v then
    match v with
    | .vstr s =>
        if s.length > cd.maxLength then Except.error (DBError.lengthExceeded name)
        else Except.ok ()
    | _ => Except.ok ()
  else if cd.dataType == "int" && isInstInt v then Except.ok ()
  else if cd.dataType == "float" && isInstFloat v then Except.ok ()
  else if cd.dataType == "bool" && isInstBool v then Except.ok ()
  else Except.error (DBError.typeMismatch name)

/-- The per-item loop of __scrub_data: lowercase the key, look it up in the
schema (KeyError becomes unknownColumn), type-check, tick the column off
all_columns and assign into the result dict. -/
def scrubLoop (cols : List (String × ColDef)) :
    List (String × Value) → List String → RowData →
    Except DBError (List String × RowData)
  | [], allCols, result => Except.ok (allCols, result)
  | (k, v) :: rest, allCols, result =>
      let kl := strLower k
      match List.lookup kl cols with
      | none => Except.error (DBError.unknownColumn kl)
      | some cd =>
          match checkValue kl cd v with
          | Except.error e => Except.error e
          | Except.ok _ =>
              scrubLoop cols rest (List.erase allCols kl) (dictSet result kl v)

/-- Embeds Table.__scrub_data on dict input: validates columns and, when
fill_missing, fills the unsupplied columns with None. -/
def scrubData (cols : List (String × ColDef)) (data : List (String × Value))
    (fillMissing : Bool) : Except DBError RowData :=
  match scrubLoop cols data (List.map (fun kv => kv.1) cols) [] with
  | Except.error e => Except.error e
  | Except.ok (leftover, result) =>
      Except.ok (if fillMissing then
        List.foldl (fun r c => dictSet r c Value.vnull) result leftover
      else result)

end MicroPyDb

namespace MicroPyDb

/-! ## Row location and find_row (source lines 763-776 and 387-400) -/

/-- Index of the first line of a page whose stored r equals row_id (blank
lines are skipped by the comparison but still counted). -/
def findLineIdx : Page → Int → Option Nat
  | [], _ => none
  | none :: rest, rowId => Option.map Nat.succ (findLineIdx rest rowId)
  | some rec :: rest, rowId =>
      if rec.r == rowId then some 0
      else Option.map Nat.succ (findLineIdx rest rowId)

/-- Embeds Table.__row_id_in_file: 0 for row id 0 without touching disk,
otherwise scan the row's page file (OSError if the file is absent) for the
line holding the id. -/
def rowIdInFile (t : Table) (rowId : Int) : Except DBError (Option Nat) :=
  if rowId == 0 then Except.ok (some 0)
  else
    match getPage t.files (pageKey t.rowsPerPage rowId) with
    | none => Except.error (DBError.fileNotFound (pageKey t.rowsPerPage rowId))
    | some pg => Except.ok (findLineIdx pg rowId)

/-- Embeds Table.find_row: locate the line index, reopen the page and
return the record parsed from that line. -/
def findRow (t : Table) (rowId : Int) : Except DBError Rec :=
  match rowIdInFile t rowId with
  | Except.error e => Except.error e
  | Except.ok none => Except.error (DBError.rowNotFound rowId)
  | Except.ok (some n) =>
      match getPage t.files (pageKey t.rowsPerPage rowId) with
      | none => Except.error (DBError.fileNotFound (pageKey t.rowsPerPage rowId))
      | some pg =>
          match List.get? pg n with
          | some (some rec) => Except.ok rec
          | some none => Except.error DBError.invalidData
          | none => Except.error DBError.noneResult

end MicroPyDb

namespace MicroPyDb

/-! ## Single-row insert (source lines 298-315, 620-629, 662-696) -/

/-- Embeds the single-row branch of Table.insert (through
__insert_modify_data_file fast path and __append_row).  The returned state
reflects every mutation performed before a raise: in particular the
current_row increment happens before the max_rows check, exactly as in the
source. -/
def insert1 (t : Table) (data : List (String × Value)) :
    Table × Option DBError :=
  match scrubData t.cols data true with
  | Except.error e => (t, some e)
  | Except.ok d =>
      if d.isEmpty then (t, some DBError.invalidData)
      else
        let t1 : Table := { t with currentRow := t.currentRow + 1 }
        let rowId := t1.currentRow
        let k := pageKey t1.rowsPerPage rowId
        if t1.currentRow < t1.maxRows then
          ({ t1 with files := appendLine t1.files k (some ⟨rowId, d⟩) }, none)
        else (t1, some DBError.tableFull)

end MicroPyDb

namespace MicroPyDb

/-! ## Multi-row insert (Table.insert list branch, source lines 241-297,
with __multi_append_row and __is_multi_insert_success) -/

/-- Python list slicing data[:n], which counts from the end for n < 0. -/
def pyTake (n : Int) (l : List RowData) : List RowData :=
  if 0 ≤ n then List.take n.toNat l
  else List.take (l.length - (-n).toNat) l

/-- Python del data[:n] leaves the complement of data[:n]. -/
def pyDrop (n : Int) (l : List RowData) : List RowData :=
  if 0 ≤ n then List.drop n.toNat l
  else List.drop (l.length - (-n).toNat) l

/-- The record lines built by the multi insert loop: consecutive row ids
starting above the given current_row, paired with the raw user dicts (the
scrubbed results are discarded by the source in this branch). -/
def buildRecs (cr : Int) : List RowData → List Line
  | [] => []
  | d :: rest => some ⟨cr + 1, d⟩ :: buildRecs (cr + 1) rest

/-- The pre-pass of the list branch: validate every element with
__scrub_data, raising on the first invalid one; results are discarded. -/
def validateAll (cols : List (String × ColDef)) : List RowData → Option DBError
  | [] => none
  | d :: rest =>
      match scrubData cols d true with
      | Except.error e => some e
      | Except.ok r => if r.isEmpty then some DBError.invalidData
                       else validateAll cols rest

/-- One while-iteration body plus the loop, with explicit fuel (the source
can loop forever on corrupted states; fuel is never exhausted in the
states the theorems below consider).  Mirrors source lines 258-296. -/
def multiLoop (cols : List (String × ColDef)) :
    Nat → Table → List RowData → Int → Table × Option DBError
  | 0, t, _, total => if 0 < total then (t, some DBError.fuelOut) else (t, none)
  | Nat.succ fuel, t, data, total =>
      if 0 < total then
        match rowIdInFile t t.currentRow with
        | Except.error e => (t, some e)
        | Except.ok none => (t, some DBError.typeError)
        | Except.ok (some idx) =>
            let currentLine : Int := (idx : Int) + 1
            let insertNumber :=
              if t.rowsPerPage - currentLine == 0 then t.rowsPerPage
              else t.rowsPerPage - currentLine
            if t.currentRow + insertNumber > t.maxRows then
              (t, some DBError.tableFull)
            else
              let firstData :=
                if insertNumber < total then pyTake insertNumber data else data
              let rest :=
                if insertNumber < total then pyDrop insertNumber data else data
              let firstPath := pageKey t.rowsPerPage (t.currentRow + 1)
              let recs := buildRecs t.currentRow firstData
              let t1 : Table :=
                { t with currentRow := t.currentRow + firstData.length,
                         files := List.foldl
                           (fun fs l => appendLine fs firstPath l) t.files recs }
              let startLine : Int :=
                if currentLine == t.rowsPerPage then 0 else currentLine
              let newPg := (getPage t1.files firstPath).getD []
              if List.drop startLine.toNat newPg == recs then
                multiLoop cols fuel t1 rest (total - insertNumber)
              else (t1, some DBError.writeVerification)
      else (t, none)

/-- Embeds the multi-row branch of Table.insert (a list whose first
element is a dict).  data[0] on an empty list raises IndexError. -/
def insertMulti (t : Table) (data : List RowData) : Table × Option DBError :=
  match data with
  | [] => (t, some DBError.indexError)
  | _ =>
      match validateAll t.cols data with
      | some e => (t, some e)
      | none => multiLoop t.cols data.length t data ((data.length : Int) - 1)

end MicroPyDb

namespace MicroPyDb

/-! ## Page rewrite: update_row and delete_row (source lines 698-743,
367-376, 331-351) -/

/-- The line-by-line copy of __modify_data_file: blank lines are skipped
(not copied), the target row's line is dropped for delete or rewritten
with the merged dict for update, every other record line is copied. -/
def rewriteLines (rowId : Int) (upd : Option RowData) : Page → Page
  | [] => []
  | none :: rest => rewriteLines rowId upd rest
  | some rec :: rest =>
      if rec.r == rowId then
        match upd with
        | none => rewriteLines rowId upd rest
        | some u => some ⟨rec.r, dictUpdate rec.d u⟩ :: rewriteLines rowId upd rest
      else some rec :: rewriteLines rowId upd rest

/-- Embeds Table.__modify_data_file: copy the page into a temp file with
the substitution applied, then atomically replace the original.  Raises
only when the page file itself is absent; a missing row id is not
detected. -/
def modifyDataFile (t : Table) (k : Int) (rowId : Int) (upd : Option RowData) :
    Table × Option DBError :=
  match getPage t.files k with
  | none => (t, some (DBError.fileNotFound k))
  | some pg =>
      ({ t with files := putPage t.files k (rewriteLines rowId upd pg) }, none)

/-- Embeds Table.delete_row. -/
def deleteRow (t : Table) (rowId : Int) : Table × Option DBError :=
  modifyDataFile t (pageKey t.rowsPerPage rowId) rowId none

/-- Embeds Table.update_row: read the existing row, merge the update into
its data, re-validate without fill, then rewrite the page. -/
def updateRow (t : Table) (rowId : Int) (upd : RowData) :
    Table × Option DBError :=
  match findRow t rowId with
  | Except.error e => (t, some e)
  | Except.ok rec =>
      let combined := dictUpdate rec.d upd
      match scrubData t.cols combined false with
      | Except.error e => (t, some e)
      | Except.ok data =>
          if data.isEmpty then (t, some DBError.invalidData)
          else modifyDataFile t (pageKey t.rowsPerPage rowId) rowId (some data)

end MicroPyDb

namespace MicroPyDb

/-! ## Row cursor recomputation (Table.__calculate_current_row,
source lines 637-660) -/

/-- The last line of a page with len(line) > 1, i.e. the last non-blank
line, if any. -/
def lastRecLine (pg : Page) : Option Rec :=
  List.foldl (fun acc l => match l with
    | some rec => some rec
    | none => acc) none pg

/-- Walks page keys in descending range order and returns the r of the
first page that has a non-blank last line. -/
def calcLoop : List Int → Files → Int
  | [], _ => 0
  | k :: ks, fs =>
      match lastRecLine ((getPage fs k).getD []) with
      | some rec => rec.r
      | none => calcLoop ks fs

/-- Embeds Table.__calculate_current_row. -/
def calculateCurrentRow (t : Table) : Int :=
  calcLoop (descKeys t.files) t.files

/-- Option-valued view of the descending scan: the first page, in the
given key order, that has a non-blank last line. -/
def calcFind (fs : Files) : List Int → Option Rec
  | [] => none
  | k :: ks =>
      match lastRecLine ((getPage fs k).getD []) with
      | some rec => some rec
      | none => calcFind fs ks

end MicroPyDb

namespace MicroPyDb

/-! ## Query engine (Table.__return_query, find, query, scan; source
lines 402-456 and 492-544) -/

/-- After __scrub_data, every predicate value is a scalar, and the source
wraps each into a singleton list; membership in that list is Python ==. -/
def wrapValues (q : RowData) : List (String × List Value) :=
  List.map (fun kv => (kv.1, [kv.2])) q

/-- Python membership v in vals by ==. -/
def pyMem (v : Value) (vals : List Value) : Bool :=
  List.any vals (fun w => pyEq v w)

/-- The per-record found/break loop of __return_query, literally: found is
set per column and the loop breaks early on a hit (single key) or a miss
(multiple keys). -/
def matchLoop (multipleKeys : Bool) (d : RowData) :
    List (String × List Value) → Bool → Bool
  | [], found => found
  | (k, vals) :: rest, _ =>
      match List.lookup k d with
      | some v =>
          if pyMem v vals then
            if multipleKeys then matchLoop multipleKeys d rest true else true
          else
            if multipleKeys then false else matchLoop multipleKeys d rest false
      | none =>
          if multipleKeys then false else matchLoop multipleKeys d rest false

/-- Whether __return_query treats one stored record as matching the
(already scrubbed and wrapped) predicate. -/
def recordFound (q : RowData) (d : RowData) : Bool :=
  matchLoop (decide (1 < q.length)) d (wrapValues q) false

/-- Embeds __return_query's scan for the record-returning search types:
the scrubbed predicate is matched against every record in descending page
order; find consumes the head, query the whole list. -/
def returnQueryRecs (t : Table) (queries : RowData) :
    Except DBError (List Rec) :=
  match (if queries.isEmpty then Except.ok queries
         else scrubData t.cols queries false : Except DBError RowData) with
  | Except.error e => Except.error e
  | Except.ok q =>
      Except.ok (List.filter (fun rec => recordFound q rec.d) (tableRecsDesc t))

/-- Embeds Table.find: the first matching record's data in descending page
order, or None. -/
def findQuery (t : Table) (queries : RowData) :
    Except DBError (Option RowData) :=
  match returnQueryRecs t queries with
  | Except.error e => Except.error e
  | Except.ok recs => Except.ok (Option.map Rec.d (List.head? recs))

/-- Embeds Table.query: all matching records' data, same scan order. -/
def queryQuery (t : Table) (queries : RowData) :
    Except DBError (List RowData) :=
  match returnQueryRecs t queries with
  | Except.error e => Except.error e
  | Except.ok recs => Except.ok (List.map Rec.d recs)

/-- The inner predicate loop of Table.scan for one record: yields the
record's data once per predicate column that compares equal, stopping at
the first mismatch; a predicate column absent from the record raises
KeyError. -/
def scanLineYields (d : RowData) : RowData → Except DBError (List RowData)
  | [] => Except.ok []
  | (k, qv) :: rest =>
      match List.lookup k d with
      | none => Except.error (DBError.keyError k)
      | some v =>
          if pyEq v qv then
            match scanLineYields d rest with
            | Except.error e => Except.error e
            | Except.ok more => Except.ok (d :: more)
          else Except.ok []

/-- Folds scanLineYields over the records, propagating the first error. -/
def scanAll (q : RowData) : List Rec → Except DBError (List RowData)
  | [] => Except.ok []
  | rec :: rest =>
      match scanLineYields rec.d q with
      | Except.error e => Except.error e
      | Except.ok ys =>
          match scanAll q rest with
          | Except.error e => Except.error e
          | Except.ok more => Except.ok (ys ++ more)

/-- Embeds Table.scan (show_row = False): the full yielded sequence, pages
ascending, lines ascending, blank lines skipped.  A falsy predicate (None
or an empty dict) yields every record's data. -/
def scanTable (t : Table) (queries : Option RowData) :
    Except DBError (List RowData) :=
  match queries with
  | none => Except.ok (List.map Rec.d (tableRecsAsc t))
  | some qs =>
      if qs.isEmpty then Except.ok (List.map Rec.d (tableRecsAsc t))
      else
        match scrubData t.cols qs false with
        | Except.error e => Except.error e
        | Except.ok q => scanAll q (tableRecsAsc t)

end MicroPyDb

namespace MicroPyDb

/-! ## Vacuum (Table.vacuum, source lines 458-484) -/

/-- Replays one renamed source file's non-blank records through the
single-row insert path, stopping at the first raise. -/
def replayPage (t : Table) : List Rec → Table × Option DBError
  | [] => (t, none)
  | rec :: rest =>
      match insert1 t rec.d with
      | (t1, none) => replayPage t1 rest
      | (t1, some e) => (t1, some e)

/-- The per-file replay loop of vacuum; returns the final state, the
source (.vacu) files not yet deleted, and the first error if any. -/
def vacuumLoop : Table → List Page → Table × List Page × Option DBError
  | t, [] => (t, [], none)
  | t, pg :: rest =>
      match replayPage t (pageRecs pg) with
      | (t1, none) => vacuumLoop t1 rest
      | (t1, some e) => (t1, pg :: rest, some e)

/-- Embeds Table.vacuum: every page file is renamed to a .vacu source (the
live directory becomes empty), current_row is reset to 0, and the sources
are replayed in ascending original range order, each deleted once fully
replayed. -/
def vacuum (t : Table) : Table × List Page × Option DBError :=
  let sources := List.map (fun k => (getPage t.files k).getD []) (ascKeys t.files)
  vacuumLoop { t with currentRow := 0, files := [] } sources

end MicroPyDb

namespace MicroPyDb

/-! ## Replay and clean-directory forms used to specify vacuum -/

/-- Replays a payload list through the single-row insert path, stopping at
the first raise (the loop vacuum drives, flattened over its source
files). -/
def replayDs : Table → List RowData → Table × Option DBError
  | t, [] => (t, none)
  | t, d :: rest =>
      match insert1 t d with
      | (t1, none) => replayDs t1 rest
      | (t1, some e) => (t1, some e)

/-- The directory obtained by folding the single-row append of records
cr+1, cr+2, ... over a payload list: the exact file mutations a clean
replay performs. -/
def cleanFilesAux (P : Int) : Int → List RowData → Files → Files
  | _, [], fs => fs
  | cr, d :: rest, fs =>
      cleanFilesAux P (cr + 1) rest
        (appendLine fs (pageKey P (cr + 1)) (some ⟨cr + 1, d⟩))

/-- Chunked closed form of a clean directory starting at row id start
(start of the form a * rows_per_page + 1): consecutive pages of at most P
records each.  The fuel bounds the recursion; ds.length always suffices
when P is at least 1. -/
def chunkFiles (P : Nat) : Nat → Nat → List RowData → Files
  | 0, _, _ => []
  | _, _, [] => []
  | Nat.succ fuel, start, d :: rest =>
      ((start : Int), buildRecs ((start : Int) - 1) (List.take P (d :: rest))) ::
        chunkFiles P fuel (start + P) (List.drop P (d :: rest))

end MicroPyDb

namespace MicroPyDb

/-! ## Spec-side comparison definitions -/

/-- Records with consecutive row ids from a given start, carrying the
given payloads: the layout the specification promises vacuum rebuilds. -/
def idRecs (start : Int) : List RowData → List Rec
  | [] => []
  | d :: rest => ⟨start, d⟩ :: idRecs (start + 1) rest

/-- Modelled from the spec (section 4.2), amended for the source's
isinstance semantics: the runtime types a declared data_type accepts,
where a bool is also an int because Python's bool subclasses int. -/
def specTypeAccepts (dt : String) (v : Value) : Prop :=
  match v with
  | Value.vstr _ => dt = "str"
  | Value.vint _ => dt = "int"
  | Value.vfloat _ => dt = "float"
  | Value.vbool _ => dt = "int" ∨ dt = "bool"
  | Value.vnull => False

/-- The AND-across-columns matching predicate of the specification
(section 4.5), with each predicate value a scalar compared by Python
equality; an empty predicate matches nothing in __return_query. -/
def specMatches (q : RowData) (d : RowData) : Bool :=
  !q.isEmpty && List.all q (fun kv =>
    match List.lookup kv.1 d with
    | some v => pyEq v kv.2
    | none => false)

/-- Length of the prefix of predicate columns a record satisfies before
scan's inner loop breaks. -/
def matchingPrefix (q : RowData) (d : RowData) : Nat :=
  (List.takeWhile (fun kv =>
    match List.lookup kv.1 d with
    | some v => pyEq v kv.2
    | none => false) q).length

end MicroPyDb

namespace MicroPyDb.Ex

/-! ## Concrete fixtures for witnesses and counterexamples -/

def strCol : ColDef := ⟨"str", 10000⟩

def colsName : List (String × ColDef) := [("name", strCol)]

def colsNP : List (String × ColDef) := [("name", strCol), ("password", strCol)]

def colsAB : List (String × ColDef) := [("a", ⟨"int", 0⟩), ("b", ⟨"int", 0⟩)]

def rowA : RowData := [("name", Value.vstr "a")]
def rowB : RowData := [("name", Value.vstr "b")]
def rowC : RowData := [("name", Value.vstr "c")]
def rowD : RowData := [("name", Value.vstr "d")]
def rowE : RowData := [("name", Value.vstr "e")]

/-- An empty table with rows_per_page 2. -/
def tEmpty : Table :=
  { rowsPerPage := 2, maxRows := 100, cols := colsName, currentRow := 0,
    files := [] }

/-- A table holding rows 1 and 2 in its first (full) page. -/
def tTwo : Table :=
  { rowsPerPage := 2, maxRows := 100, cols := colsName, currentRow := 2,
    files := [(1, [some ⟨1, rowA⟩, some ⟨2, rowB⟩])] }

/-- A table whose only page holds only row 1 while current_row is 2. -/
def tOneRow : Table :=
  { rowsPerPage := 2, maxRows := 100, cols := colsName, currentRow := 2,
    files := [(1, [some ⟨1, rowA⟩])] }

/-- A table with one live row whose password column was null-filled by a
single-row insert that omitted it. -/
def tNull : Table :=
  { rowsPerPage := 2, maxRows := 100, cols := colsNP, currentRow := 1,
    files := [(1, [some ⟨1, [("name", Value.vstr "x"),
                             ("password", Value.vnull)]⟩])] }

/-- An empty one-row-capacity table. -/
def tCapOne : Table :=
  { rowsPerPage := 2, maxRows := 1, cols := colsName, currentRow := 0,
    files := [] }

/-- An empty table whose max_rows (5) is below one page (10). -/
def tCapFive : Table :=
  { rowsPerPage := 10, maxRows := 5, cols := colsName, currentRow := 0,
    files := [] }

/-- The record data used by the query fixtures. -/
def dAB : RowData := [("a", Value.vint 1), ("b", Value.vint 2)]

/-- A table holding one record with columns a = 1 and b = 2. -/
def tAB : Table :=
  { rowsPerPage := 10, maxRows := 100, cols := colsAB, currentRow := 1,
    files := [(1, [some ⟨1, dAB⟩])] }

/-- A three-row table with fully specified payloads, for the vacuum
witness. -/
def tVac : Table :=
  { rowsPerPage := 2, maxRows := 100, cols := colsName, currentRow := 3,
    files := [(1, [some ⟨1, rowA⟩, some ⟨2, rowB⟩]),
              (3, [some ⟨3, rowC⟩])] }

end MicroPyDb.Ex

section C1

open MicroPyDb

/-- Claim C1: for every row id r with r ≥ 1 and every rows_per_page P > 0,
the page addressing function returns a range (a, b) with a ≤ r ≤ b and
b - a + 1 = P, and the page file name is data<a>_<b>.dat with a and b
printed as decimal integers. -/
theorem C1_page_addressing (P r : Int) (hP : 0 < P) (_hr : 1 ≤ r) :
    (pageRange P r).1 ≤ r ∧ r ≤ (pageRange P r).2 ∧
    (pageRange P r).2 - (pageRange P r).1 + 1 = P ∧
    dataFileName P r =
      "data" ++ toString (pageRange P r).1 ++ "_" ++
        toString (pageRange P r).2 ++ ".dat" := by
  have hdm : P * Int.ediv r P + Int.emod r P = r := Int.ediv_add_emod r P
  have hm0 : 0 ≤ Int.emod r P := Int.emod_nonneg r (by omega)
  have hmP : Int.emod r P < P := Int.emod_lt_of_pos r hP
  have hc : Int.ediv r P * P = P * Int.ediv r P := Int.mul_comm _ _
  unfold pageRange dataFileName
  by_cases h : Int.emod r P = 0
  · simp only [pageRange, h]
    norm_num
    refine ⟨by omega, by omega, by omega⟩
  · have hne : (Int.emod r P == 0) = false := by
      simp [h]
    simp only [pageRange, hne]
    norm_num
    refine ⟨by omega, by omega, by omega⟩

/-- Witness for C1 at P = 3, r = 7: the page is [7, 9]. -/
theorem C1_page_addressing_witness :
    (0 : Int) < 3 ∧ (1 : Int) ≤ 7 ∧
    (pageRange 3 7).1 ≤ 7 ∧ (7 : Int) ≤ (pageRange 3 7).2 ∧
    (pageRange 3 7).2 - (pageRange 3 7).1 + 1 = 3 ∧
    dataFileName 3 7 =
      "data" ++ toString (pageRange 3 7).1 ++ "_" ++
        toString (pageRange 3 7).2 ++ ".dat" := by
  refine ⟨by norm_num, by norm_num, ?_⟩
  have h := C1_page_addressing 3 7 (by norm_num) (by norm_num)
  exact ⟨h.1, h.2.1, h.2.2.1, h.2.2.2⟩

end C1

section C2

open MicroPyDb MicroPyDb.Ex

/-- Claim C2 (refuted at the failing input; the code, not the claim, is at
fault): from a table holding rows 1 and 2 with rows_per_page = 2, the
batched insert of three schema-valid rows reports success, but it appends
the record for row 5 to the page file covering rows 3-4 (which then holds
three lines), so find_row(5) fails opening the nonexistent page file for
rows 5-6 instead of returning the inserted data.  The single-row ids 3 and
4 of the same batch do round trip. -/
theorem C2_batch_roundtrip_fails_at_boundary :
    (insertMulti tTwo [rowC, rowD, rowE]).2 = none ∧
    (insertMulti tTwo [rowC, rowD, rowE]).1.currentRow = 5 ∧
    getPage (insertMulti tTwo [rowC, rowD, rowE]).1.files 3 =
      some [some ⟨3, rowC⟩, some ⟨4, rowD⟩, some ⟨5, rowE⟩] ∧
    findRow (insertMulti tTwo [rowC, rowD, rowE]).1 3 = Except.ok ⟨3, rowC⟩ ∧
    findRow (insertMulti tTwo [rowC, rowD, rowE]).1 4 = Except.ok ⟨4, rowD⟩ ∧
    findRow (insertMulti tTwo [rowC, rowD, rowE]).1 5 =
      Except.error (DBError.fileNotFound 5) := by
  refine ⟨rfl, rfl, rfl, rfl, rfl, rfl⟩

end C2

section C9

open MicroPyDb MicroPyDb.Ex

/-- Counterexample to claim C9: a boolean supplied for a column declared
int passes the source's validation (Python's bool is a subclass of int),
where the claim requires a TypeMismatch failure. -/
theorem C9_bool_accepted_for_int_column :
    checkValue "a" ⟨"int", 0⟩ (Value.vbool true) = Except.ok () ∧
    scrubData colsAB [("a", Value.vbool true)] false =
      Except.ok [("a", Value.vbool true)] := by
  exact ⟨rfl, rfl⟩

/-- Claim C9 as amended: validation of one value against its column fails
with TypeMismatch exactly when the value's runtime type is not accepted by
the declared data_type under Python isinstance semantics, where a bool is
also accepted by an int column; and it succeeds exactly when the type is
accepted and, for str values, the length is within max_length. -/
theorem C9_type_validation_characterized (name : String) (cd : ColDef)
    (v : Value) :
    (checkValue name cd v = Except.error (DBError.typeMismatch name) ↔
      ¬ specTypeAccepts cd.dataType v) ∧
    (checkValue name cd v = Except.ok () ↔
      (specTypeAccepts cd.dataType v ∧
        ∀ s, v = Value.vstr s → s.length ≤ cd.maxLength)) := by
  obtain ⟨dt, ml⟩ := cd
  cases v <;>
    simp [checkValue, specTypeAccepts, isInstStr, isInstInt, isInstFloat,
      isInstBool] <;>
    by_cases h1 : dt = "str" <;>
    by_cases h2 : dt = "int" <;>
    by_cases h3 : dt = "float" <;>
    by_cases h4 : dt = "bool" <;>
    simp_all <;>
    (try split) <;>
    simp_all

/-- Witness applying the amended C9 at a concrete column and value: an int
column accepts a bool and rejects a string. -/
theorem C9_type_validation_witness :
    (checkValue "a" ⟨"int", 0⟩ (Value.vbool true) =
        Except.error (DBError.typeMismatch "a") ↔
      ¬ specTypeAccepts "int" (Value.vbool true)) ∧
    (checkValue "a" ⟨"int", 0⟩ (Value.vstr "x") =
        Except.error (DBError.typeMismatch "a") ↔
      ¬ specTypeAccepts "int" (Value.vstr "x")) := by
  have h1 := C9_type_validation_characterized "a" ⟨"int", 0⟩ (Value.vbool true)
  have h2 := C9_type_validation_characterized "a" ⟨"int", 0⟩ (Value.vstr "x")
  exact ⟨h1.1, h2.1⟩

end C9

section C10

open MicroPyDb MicroPyDb.Ex

/-- Claim C10: the list branch of insert computes total = len(data) - 1,
so a batch of exactly one (validating) mapping skips the write loop
entirely: it returns success and the table state, current_row and page
files included, is unchanged. -/
theorem C10_singleton_batch_inserts_nothing (t : Table) (d : RowData)
    (r : RowData) (hscrub : scrubData t.cols d true = Except.ok r)
    (hne : r.isEmpty = false) :
    insertMulti t [d] = (t, none) := by
  simp only [insertMulti, validateAll, hscrub, hne]
  simp [multiLoop]

/-- Witness for C10 on a concrete empty table and row. -/
theorem C10_singleton_batch_witness :
    scrubData tEmpty.cols rowA true = Except.ok rowA ∧
    rowA.isEmpty = false ∧
    insertMulti tEmpty [rowA] = (tEmpty, none) :=
  ⟨rfl, rfl, C10_singleton_batch_inserts_nothing tEmpty rowA rowA rfl rfl⟩

end C10

namespace MicroPyDb

/-! ## Helper lemmas about the page rewrite and lookups -/

@[simp] theorem pageRecs_nil : pageRecs [] = [] := rfl

@[simp] theorem pageRecs_cons_none (rest : Page) :
    pageRecs (none :: rest) = pageRecs rest := rfl

@[simp] theorem pageRecs_cons_some (rec : Rec) (rest : Page) :
    pageRecs (some rec :: rest) = rec :: pageRecs rest := rfl

theorem rewriteLines_delete (rowId : Int) (pg : Page) :
    rewriteLines rowId none pg =
      List.map some (List.filter (fun rec => !(rec.r == rowId)) (pageRecs pg)) := by
  induction pg with
  | nil => rfl
  | cons l rest ih =>
      cases l with
      | none => simpa [rewriteLines] using ih
      | some rec =>
          by_cases h : rec.r = rowId
          · simp [rewriteLines, h, ih]
          · simp [rewriteLines, h, ih]

theorem rewriteLines_no_match (rowId : Int) (upd : Option RowData) (pg : Page)
    (h : ∀ rec ∈ pageRecs pg, ¬ rec.r = rowId) :
    rewriteLines rowId upd pg = List.map some (pageRecs pg) := by
  induction pg with
  | nil => rfl
  | cons l rest ih =>
      cases l with
      | none =>
          simp only [pageRecs_cons_none] at h
          simpa [rewriteLines] using ih h
      | some rec =>
          simp only [pageRecs_cons_some, List.mem_cons] at h
          have hne : ¬ rec.r = rowId := h rec (Or.inl rfl)
          simp [rewriteLines, hne, ih fun r hr => h r (Or.inr hr)]

theorem pageRecs_map_some (l : List Rec) : pageRecs (List.map some l) = l := by
  induction l with
  | nil => rfl
  | cons x xs ih => simpa using ih

theorem findLineIdx_eq_none (pg : Page) (rowId : Int)
    (h : ∀ rec ∈ pageRecs pg, ¬ rec.r = rowId) : findLineIdx pg rowId = none := by
  induction pg with
  | nil => rfl
  | cons l rest ih =>
      cases l with
      | none =>
          simp only [pageRecs_cons_none] at h
          simp [findLineIdx, ih h]
      | some rec =>
          simp only [pageRecs_cons_some, List.mem_cons] at h
          have hne : ¬ rec.r = rowId := h rec (Or.inl rfl)
          simp [findLineIdx, hne, ih fun r hr => h r (Or.inr hr)]

theorem countP_not_add_countP (p : Rec → Bool) (l : List Rec) :
    List.countP (fun a => !(p a)) l + List.countP p l = l.length := by
  induction l with
  | nil => rfl
  | cons x xs ih => by_cases h : p x <;> simp [List.countP_cons, h] <;> omega

theorem getPage_putPage_self (fs : Files) (k : Int) (pg : Page) :
    getPage (putPage fs k pg) k = some pg := by
  induction fs with
  | nil => simp [putPage, getPage, List.lookup]
  | cons kv rest ih =>
      obtain ⟨k', pg'⟩ := kv
      by_cases h : k' = k
      · simp [putPage, getPage, List.lookup, h]
      · have hb : (k' == k) = false := by simp [h]
        have hb2 : (k == k') = false := by simp [Ne.symm h]
        simp only [putPage, hb]
        simpa [getPage, List.lookup, hb2] using ih

end MicroPyDb

section C3

open MicroPyDb MicroPyDb.Ex

/-- Counterexample to claim C3: deleting row 1 from the page holding rows
1 and 2 does not blank the row's line (the slot is not preserved): the
line is removed outright and the page shrinks from two lines to one. -/
theorem C3_delete_does_not_blank_line :
    deleteRow tTwo 1 =
      ({ tTwo with files := [(1, [some ⟨2, rowB⟩])] }, none) ∧
    (deleteRow tTwo 1).1.files ≠ [(1, [none, some ⟨2, rowB⟩])] := by
  exact ⟨rfl, by decide⟩

/-- Claim C3 as amended: for a row id whose page contains exactly one
record with that id, delete_row removes that record's line outright (and
also drops any blank lines of the page) rather than blanking it; every
other record is preserved in order, the page's record count decreases by
exactly one, and a subsequent find_row on the id fails with the not-found
error. -/
theorem C3_delete_row_amended (t : Table) (rowId : Int) (pg : Page)
    (hid : rowId ≠ 0)
    (hpg : getPage t.files (pageKey t.rowsPerPage rowId) = some pg)
    (hcount : List.countP (fun rec => rec.r == rowId) (pageRecs pg) = 1) :
    deleteRow t rowId =
      ({ t with files := (putPage t.files (pageKey t.rowsPerPage rowId)
          (List.map some (List.filter (fun rec => !(rec.r == rowId))
            (pageRecs pg)))) }, none) ∧
    (pageRecs (List.map some (List.filter (fun rec => !(rec.r == rowId))
        (pageRecs pg)))).length + 1 = (pageRecs pg).length ∧
    findRow ({ t with files := (putPage t.files (pageKey t.rowsPerPage rowId)
        (List.map some (List.filter (fun rec => !(rec.r == rowId))
          (pageRecs pg)))) } : Table) rowId =
      Except.error (DBError.rowNotFound rowId) := by
  refine ⟨?_, ?_, ?_⟩
  · simp [deleteRow, modifyDataFile, hpg, rewriteLines_delete]
  · rw [pageRecs_map_some]
    have h1 : (List.filter (fun rec => !(rec.r == rowId)) (pageRecs pg)).length
        = List.countP (fun rec => !(rec.r == rowId)) (pageRecs pg) :=
      (List.countP_eq_length_filter _ _).symm
    have h2 := countP_not_add_countP (fun rec => rec.r == rowId) (pageRecs pg)
    simp only [] at h2
    omega
  · have hb : (rowId == 0) = false := by simp [hid]
    have hget := getPage_putPage_self t.files (pageKey t.rowsPerPage rowId)
      (List.map some (List.filter (fun rec => !(rec.r == rowId)) (pageRecs pg)))
    have hnone : findLineIdx (List.map some (List.filter
        (fun rec => !(rec.r == rowId)) (pageRecs pg))) rowId = none := by
      apply findLineIdx_eq_none
      intro rec hrec
      rw [pageRecs_map_some] at hrec
      have := List.of_mem_filter hrec
      simpa using this
    simp [findRow, rowIdInFile, hb, hget, hnone]

/-- Witness for the amended C3 at the two-row fixture, deleting row 1. -/
theorem C3_delete_row_amended_witness :
    (1 : Int) ≠ 0 ∧
    getPage tTwo.files (pageKey tTwo.rowsPerPage 1) =
      some [some ⟨1, rowA⟩, some ⟨2, rowB⟩] ∧
    deleteRow tTwo 1 =
      ({ tTwo with files := (putPage tTwo.files (pageKey tTwo.rowsPerPage 1)
          (List.map some (List.filter (fun rec => !(rec.r == 1))
            (pageRecs [some ⟨1, rowA⟩, some ⟨2, rowB⟩])))) }, none) ∧
    findRow ({ tTwo with files := (putPage tTwo.files (pageKey tTwo.rowsPerPage 1)
        (List.map some (List.filter (fun rec => !(rec.r == 1))
          (pageRecs [some ⟨1, rowA⟩, some ⟨2, rowB⟩])))) } : Table) 1 =
      Except.error (DBError.rowNotFound 1) := by
  have h := C3_delete_row_amended tTwo 1 [some ⟨1, rowA⟩, some ⟨2, rowB⟩]
    (by decide) rfl (by decide)
  exact ⟨by decide, rfl, h.1, h.2.2⟩

end C3

section C8

open MicroPyDb MicroPyDb.Ex

/-- Counterexample to claim C8: deleting row id 2, whose page file exists
but holds no record with that id, does not fail with RowNotFound: the
rewrite silently succeeds and the page contents are unchanged. -/
theorem C8_missing_row_rewrite_succeeds :
    deleteRow tOneRow 2 = (tOneRow, none) := by
  rfl

/-- Claim C8 as amended: when the target page exists but lacks the row id,
the rewrite path succeeds silently, rewriting the page with every record
preserved in order (blank lines, if any, are dropped); delete_row is thus
a silent no-op on the records, while update_row still fails beforehand
because its initial find_row raises the row-not-found error. -/
theorem C8_missing_row_amended (t : Table) (rowId : Int) (pg : Page)
    (u : RowData) (hid : rowId ≠ 0)
    (hpg : getPage t.files (pageKey t.rowsPerPage rowId) = some pg)
    (hnone : ∀ rec ∈ pageRecs pg, ¬ rec.r = rowId) :
    deleteRow t rowId =
      ({ t with files := (putPage t.files (pageKey t.rowsPerPage rowId)
          (List.map some (pageRecs pg))) }, none) ∧
    updateRow t rowId u = (t, some (DBError.rowNotFound rowId)) := by
  constructor
  · simp [deleteRow, modifyDataFile, hpg, rewriteLines_no_match _ _ _ hnone]
  · have hb : (rowId == 0) = false := by simp [hid]
    simp [updateRow, findRow, rowIdInFile, hb, hpg,
      findLineIdx_eq_none pg rowId hnone]

/-- Witness for the amended C8 at the fixture whose page holds only
row 1, targeting row id 2. -/
theorem C8_missing_row_amended_witness :
    (2 : Int) ≠ 0 ∧
    getPage tOneRow.files (pageKey tOneRow.rowsPerPage 2) =
      some [some ⟨1, rowA⟩] ∧
    deleteRow tOneRow 2 =
      ({ tOneRow with files := (putPage tOneRow.files
          (pageKey tOneRow.rowsPerPage 2)
          (List.map some (pageRecs [some ⟨1, rowA⟩]))) }, none) ∧
    updateRow tOneRow 2 rowB = (tOneRow, some (DBError.rowNotFound 2)) := by
  have h := C8_missing_row_amended tOneRow 2 [some ⟨1, rowA⟩] rowB
    (by decide) rfl (by decide)
  exact ⟨by decide, rfl, h.1, h.2⟩

end C8

namespace MicroPyDb

theorem multiLoop_first_full (cols : List (String × ColDef)) (fuel : Nat)
    (t : Table) (data : List RowData) (total : Int) (idx : Nat)
    (htotal : 0 < total)
    (hidx : rowIdInFile t t.currentRow = Except.ok (some idx))
    (hover : t.currentRow +
      (if t.rowsPerPage - ((idx : Int) + 1) == 0 then t.rowsPerPage
       else t.rowsPerPage - ((idx : Int) + 1)) > t.maxRows) :
    multiLoop cols (Nat.succ fuel) t data total = (t, some DBError.tableFull) := by
  simp only [multiLoop, if_pos htotal, hidx]
  rw [if_pos hover]

end MicroPyDb

section C7

open MicroPyDb MicroPyDb.Ex

/-- Counterexample to claim C7: with max_rows = 1, inserting the first row
(which would bring the row count to exactly max_rows) fails with the
table-full error and writes nothing, where the claim requires success. -/
theorem C7_insert_reaching_max_rows_fails :
    (insert1 tCapOne rowA).2 = some DBError.tableFull ∧
    (insert1 tCapOne rowA).1.files = [] := by
  exact ⟨rfl, rfl⟩

/-- Claim C7 as amended: a single-row insert fails with the table-full
error exactly when the incremented current_row is not strictly below
max_rows, i.e. the last id a single insert can create is max_rows - 1,
and the failing insert writes nothing (the page files are unchanged,
though the in-memory cursor has already been incremented); a batched
insert raises table-full when current_row plus the free-line estimate of
the current page exceeds max_rows, even when the rows actually remaining
in the batch would fit, and then nothing of the failing chunk is
written (the state is returned unchanged). -/
theorem C7_table_full_amended :
    (∀ (t : Table) (d : List (String × Value)) (r : RowData),
      scrubData t.cols d true = Except.ok r → r.isEmpty = false →
      (((insert1 t d).2 = some DBError.tableFull) ↔
        t.maxRows ≤ t.currentRow + 1) ∧
      ((insert1 t d).2 = some DBError.tableFull →
        (insert1 t d).1.files = t.files)) ∧
    (∀ (t : Table) (data : List RowData) (idx : Nat),
      1 < data.length →
      validateAll t.cols data = none →
      rowIdInFile t t.currentRow = Except.ok (some idx) →
      t.maxRows < t.currentRow +
        (if t.rowsPerPage - ((idx : Int) + 1) == 0 then t.rowsPerPage
         else t.rowsPerPage - ((idx : Int) + 1)) →
      insertMulti t data = (t, some DBError.tableFull)) := by
  constructor
  · intro t d r hscrub hne
    simp only [insert1, hscrub, hne]
    constructor
    · constructor
      · intro h
        by_contra hlt
        simp only [Bool.false_eq_true, if_neg, show t.currentRow + 1 < t.maxRows
          from by omega, if_pos] at h
        simp at h
      · intro h
        have : ¬ (t.currentRow + 1 < t.maxRows) := by omega
        simp [this]
    · intro h
      by_cases hlt : t.currentRow + 1 < t.maxRows
      · simp [hlt] at h
      · simp [hlt]
  · intro t data idx hlen hval hidx hover
    cases data with
    | nil => simp at hlen
    | cons d0 data' =>
        simp only [insertMulti, hval]
        have htotal : (0 : Int) < ((d0 :: data').length : Int) - 1 := by
          simp only [List.length_cons] at hlen ⊢
          push_cast
          omega
        exact multiLoop_first_full t.cols data'.length t (d0 :: data') _ idx
          htotal hidx hover

/-- Witness for the amended C7: the single-row part at the one-capacity
table and the batched part at the five-capacity table with a two-row
batch that would fit but is rejected. -/
theorem C7_table_full_amended_witness :
    (insert1 tCapOne rowA).2 = some DBError.tableFull ∧
    insertMulti tCapFive [rowA, rowB] = (tCapFive, some DBError.tableFull) := by
  have h := C7_table_full_amended
  refine ⟨(h.1 tCapOne rowA rowA rfl rfl).1.mpr (by decide), ?_⟩
  exact h.2 tCapFive [rowA, rowB] 0 (by decide) rfl rfl (by decide)

end C7

namespace MicroPyDb

/-! ## Helper lemmas for the query engine -/

theorem pyMem_singleton (v w : Value) : pyMem v [w] = pyEq v w := by
  simp [pyMem]

theorem matchLoop_true_of_true (d : RowData) :
    ∀ q : List (String × List Value),
    matchLoop true d q true =
      List.all q (fun kv => match List.lookup kv.1 d with
        | some v => pyMem v kv.2
        | none => false)
  | [] => rfl
  | (k, vals) :: rest => by
      simp only [matchLoop, List.all_cons]
      cases hl : List.lookup k d with
      | none => simp
      | some v =>
          by_cases hm : pyMem v vals = true
          · simp [hm, matchLoop_true_of_true d rest]
          · simp at hm
            simp [hm]

theorem wrapValues_all (d : RowData) (q : RowData) :
    List.all (wrapValues q) (fun kv => match List.lookup kv.1 d with
      | some v => pyMem v kv.2
      | none => false) =
    List.all q (fun kv => match List.lookup kv.1 d with
      | some v => pyEq v kv.2
      | none => false) := by
  induction q with
  | nil => rfl
  | cons kv rest ih =>
      obtain ⟨k, qv⟩ := kv
      simp only [wrapValues, List.map_cons, List.all_cons] at ih ⊢
      rw [ih]
      cases List.lookup k d <;> simp [pyMem_singleton]

theorem recordFound_eq_specMatches (q : RowData) (d : RowData) :
    recordFound q d = specMatches q d := by
  cases q with
  | nil => rfl
  | cons kv rest =>
      obtain ⟨k, qv⟩ := kv
      cases rest with
      | nil =>
          simp only [recordFound, specMatches, wrapValues, List.map_cons,
            List.map_nil, List.length_cons, List.length_nil]
          norm_num
          simp only [matchLoop]
          cases hl : List.lookup k d with
          | none => simp [matchLoop]
          | some v =>
              by_cases hm : pyEq v qv = true
              · simp [pyMem_singleton, hm]
              · simp at hm
                simp [pyMem_singleton, hm, matchLoop]
      | cons kv2 rest2 =>
          have hmk : decide (1 < ((k, qv) :: kv2 :: rest2 : RowData).length) = true := by
            simp
          simp only [recordFound, hmk, wrapValues, List.map_cons]
          have hrw := matchLoop_true_of_true d (wrapValues (kv2 :: rest2))
          have hall := wrapValues_all d (kv2 :: rest2)
          simp only [wrapValues, List.map_cons] at hrw hall
          cases hl : List.lookup k d with
          | none =>
              rw [matchLoop]
              simp [hl, specMatches]
          | some v =>
              rw [matchLoop]
              simp only [hl]
              by_cases hm : pyEq v qv = true
              · simp only [pyMem_singleton, hm, if_true, hrw, hall]
                simp [specMatches, hl, hm]
              · simp at hm
                simp only [pyMem_singleton, hm]
                simp [specMatches, hl, hm]

theorem scanLineYields_eq_replicate (d : RowData) (q : RowData)
    (h : ∀ kv ∈ q, (List.lookup kv.1 d).isSome = true) :
    scanLineYields d q = Except.ok (List.replicate (matchingPrefix q d) d) := by
  induction q with
  | nil => rfl
  | cons kv rest ih =>
      obtain ⟨k, qv⟩ := kv
      obtain ⟨v, hv⟩ : ∃ v, List.lookup k d = some v := by
        have := h (k, qv) (by simp)
        cases hl : List.lookup k d with
        | none => rw [hl] at this; simp at this
        | some v => exact ⟨v, rfl⟩
      by_cases hm : pyEq v qv = true
      · simp only [scanLineYields, hv, hm, if_true,
          ih fun kv hkv => h kv (by simp [hkv]), matchingPrefix,
          List.takeWhile, List.length_cons]
        simp [matchingPrefix, List.replicate]
      · simp at hm
        simp [scanLineYields, hv, hm, matchingPrefix, List.takeWhile]

end MicroPyDb

section C6

open MicroPyDb MicroPyDb.Ex

/-- Counterexample to claim C6: the table holds one record with a = 1 and
b = 2; scanning with the two-column predicate a = 1, b = 2 yields that
record twice in one pass (once per matching column), while query returns
it exactly once — so scan does not produce each matching record exactly
once, as the claim requires of all three operations. -/
theorem C6_scan_yields_record_twice :
    scanTable tAB (some [("a", Value.vint 1), ("b", Value.vint 2)]) =
      Except.ok [dAB, dAB] ∧
    queryQuery tAB [("a", Value.vint 1), ("b", Value.vint 2)] =
      Except.ok [dAB] := by
  exact ⟨rfl, rfl⟩

/-- Claim C6 as amended: find and query treat a record as a match exactly
under the AND-across-columns semantics with scalar Python equality (an
empty predicate matches nothing); the OR-across-accepted-values form never
reaches matching because a list-valued predicate entry fails the schema
validation run on predicates first.  scan, however, walks the predicate
columns in order and yields the record's data once per column that
compares equal, stopping at the first mismatch, so a record matching all
k predicate columns is produced k times per pass. -/
theorem C6_matching_semantics_amended :
    (∀ (q d : RowData), recordFound q d = specMatches q d) ∧
    (∀ (q d : RowData), (∀ kv ∈ q, (List.lookup kv.1 d).isSome = true) →
      scanLineYields d q = Except.ok (List.replicate (matchingPrefix q d) d)) :=
  ⟨recordFound_eq_specMatches, fun q d h => scanLineYields_eq_replicate d q h⟩

/-- Witness for the amended C6 at the concrete one-record fixture with a
fully matching two-column predicate. -/
theorem C6_matching_semantics_witness :
    recordFound [("a", Value.vint 1), ("b", Value.vint 2)] dAB =
      specMatches [("a", Value.vint 1), ("b", Value.vint 2)] dAB ∧
    scanLineYields dAB [("a", Value.vint 1), ("b", Value.vint 2)] =
      Except.ok (List.replicate
        (matchingPrefix [("a", Value.vint 1), ("b", Value.vint 2)] dAB) dAB) := by
  have h := C6_matching_semantics_amended
  exact ⟨h.1 _ dAB, h.2 _ dAB (by decide)⟩

end C6

namespace MicroPyDb

/-! ## Helper lemmas for the row cursor -/

@[simp] theorem filesRecs_nil : filesRecs [] = [] := rfl

@[simp] theorem filesRecs_cons (kv : Int × Page) (rest : Files) :
    filesRecs (kv :: rest) = pageRecs kv.2 ++ filesRecs rest := rfl

@[simp] theorem keysRecs_nil (fs : Files) : keysRecs fs [] = [] := rfl

@[simp] theorem keysRecs_cons (fs : Files) (k : Int) (ks : List Int) :
    keysRecs fs (k :: ks) =
      pageRecs ((getPage fs k).getD []) ++ keysRecs fs ks := rfl

theorem pageRecs_append (a b : Page) :
    pageRecs (a ++ b) = pageRecs a ++ pageRecs b := by
  simp [pageRecs]

theorem mem_filesRecs_appendLine (fs : Files) (k : Int) (nr : Rec) (x : Rec) :
    x ∈ filesRecs (appendLine fs k (some nr)) ↔ x ∈ filesRecs fs ∨ x = nr := by
  induction fs with
  | nil => simp [appendLine, pageRecs]
  | cons kv rest ih =>
      obtain ⟨k', pg⟩ := kv
      by_cases h : k' = k
      · simp only [appendLine, h, beq_self_eq_true, if_true, filesRecs_cons,
          List.mem_append, pageRecs_append]
        simp [pageRecs]
        tauto
      · have hb : (k' == k) = false := by simp [h]
        simp only [appendLine, hb, Bool.false_eq_true, if_false, filesRecs_cons,
          List.mem_append, ih]
        tauto

theorem mem_filesRecs_putPage (fs : Files) (k : Int) (pg : Page) (x : Rec) :
    x ∈ filesRecs (putPage fs k pg) → x ∈ pageRecs pg ∨ x ∈ filesRecs fs := by
  induction fs with
  | nil => intro h; simpa [putPage] using h
  | cons kv rest ih =>
      obtain ⟨k', pg'⟩ := kv
      intro h
      by_cases hk : k' = k
      · subst hk
        simp only [putPage, beq_self_eq_true, if_true, filesRecs_cons,
          List.mem_append] at h
        simp only [filesRecs_cons, List.mem_append]
        tauto
      · have hb : (k' == k) = false := by simp [hk]
        simp only [putPage, hb, Bool.false_eq_true, if_false, filesRecs_cons,
          List.mem_append] at h
        simp only [filesRecs_cons, List.mem_append]
        rcases h with h | h
        · tauto
        · rcases ih h with h2 | h2 <;> tauto

theorem mem_of_getPage (fs : Files) (k : Int) (pg : Page) (x : Rec)
    (hx : x ∈ pageRecs pg) :
    getPage fs k = some pg → x ∈ filesRecs fs := by
  induction fs with
  | nil => intro h; simp [getPage, List.lookup] at h
  | cons kv rest ih =>
      obtain ⟨k', pg'⟩ := kv
      intro h
      by_cases hk : (k == k') = true
      · simp only [getPage, List.lookup, hk, if_true, Option.some.injEq] at h
        subst h
        simp [List.mem_append, hx]
      · have hb : (k == k') = false := by simpa using hk
        simp only [getPage, List.lookup, hb, Bool.false_eq_true, if_false] at h
        simp only [filesRecs_cons, List.mem_append]
        exact Or.inr (ih h)

theorem mem_pageRecs_rewriteLines_delete (rowId : Int) (pg : Page) (x : Rec)
    (h : x ∈ pageRecs (rewriteLines rowId none pg)) : x ∈ pageRecs pg := by
  rw [rewriteLines_delete, pageRecs_map_some] at h
  exact List.mem_of_mem_filter h

theorem getLastQ_cons_eq {α : Type} (a : α) (l : List α) :
    List.getLast? (a :: l) =
      match List.getLast? l with
      | some r => some r
      | none => some a := by
  cases l with
  | nil => rfl
  | cons b l' =>
      rw [List.getLast?_cons_cons]
      cases h : List.getLast? (b :: l') with
      | none =>
          exact absurd h (by simp [List.getLast?_eq_none_iff])
      | some r => rfl

theorem getLastQ_append {α : Type} (a b : List α) :
    List.getLast? (a ++ b) =
      match List.getLast? b with
      | some x => some x
      | none => List.getLast? a := by
  induction a with
  | nil =>
      simp only [List.nil_append]
      cases List.getLast? b <;> rfl
  | cons x a' ih =>
      rw [List.cons_append, getLastQ_cons_eq, ih, getLastQ_cons_eq]
      cases List.getLast? b <;> cases List.getLast? a' <;> rfl

theorem lastRecLine_eq_getLast (pg : Page) :
    lastRecLine pg = List.getLast? (pageRecs pg) := by
  have key : ∀ (pg : Page) (acc : Option Rec),
      List.foldl (fun acc l => match l with
        | some rec => some rec
        | none => acc) acc pg =
      match List.getLast? (pageRecs pg) with
      | some r => some r
      | none => acc := by
    intro pg
    induction pg with
    | nil => intro acc; rfl
    | cons l rest ih =>
        intro acc
        cases l with
        | none => simpa [List.foldl] using ih acc
        | some rec =>
            simp only [List.foldl, pageRecs_cons_some, ih (some rec),
              getLastQ_cons_eq]
            cases List.getLast? (pageRecs rest) <;> rfl
  rw [lastRecLine, key pg none]
  cases List.getLast? (pageRecs pg) <;> rfl

theorem calcLoop_eq_calcFind (fs : Files) (ks : List Int) :
    calcLoop ks fs = (Option.map Rec.r (calcFind fs ks)).getD 0 := by
  induction ks with
  | nil => rfl
  | cons k ks ih =>
      simp only [calcLoop, calcFind]
      cases lastRecLine ((getPage fs k).getD []) with
      | none => simpa using ih
      | some rec => rfl

theorem calcFind_append (fs : Files) (xs ys : List Int) :
    calcFind fs (xs ++ ys) =
      match calcFind fs xs with
      | some r => some r
      | none => calcFind fs ys := by
  induction xs with
  | nil => simp only [List.nil_append, calcFind]
  | cons k xs ih =>
      simp only [List.cons_append, calcFind]
      cases lastRecLine ((getPage fs k).getD []) with
      | none => exact ih
      | some rec => rfl

theorem calcFind_reverse (fs : Files) (ks : List Int) :
    calcFind fs (List.reverse ks) = List.getLast? (keysRecs fs ks) := by
  induction ks with
  | nil => rfl
  | cons k ks ih =>
      rw [List.reverse_cons, calcFind_append, ih, keysRecs_cons, getLastQ_append]
      have hk : calcFind fs [k] = lastRecLine ((getPage fs k).getD []) := by
        simp only [calcFind]
        cases lastRecLine ((getPage fs k).getD []) <;> rfl
      rw [hk, lastRecLine_eq_getLast]
      cases List.getLast? (keysRecs fs ks) <;> rfl

end MicroPyDb

section C5

open MicroPyDb MicroPyDb.Ex

/-- Counterexample to claim C5: insert one row into an empty table, then
delete it.  The in-memory current_row stays 1 while no page file holds any
record, so the claimed invariant (current_row equals the highest present
row id, or 0 for an empty table) fails; the open-time recomputation would
return 0. -/
theorem C5_delete_highest_breaks_invariant :
    (deleteRow (insert1 tEmpty rowA).1 1).1.currentRow = 1 ∧
    allRecs (deleteRow (insert1 tEmpty rowA).1 1).1 = [] ∧
    calculateCurrentRow (deleteRow (insert1 tEmpty rowA).1 1).1 = 0 := by
  exact ⟨rfl, rfl, rfl⟩

/-- Claim C5 as amended: current_row is an upper bound on every stored row
id, and that bound is preserved by the single-row insert, which on success
also stores a record carrying exactly the new current_row (so the claimed
equality holds right after an insert); delete only removes records and
leaves current_row alone, so deleting the highest row makes current_row
strictly exceed every stored id; the open-time descending page scan
returns the row id of the last record in ascending page-and-line order,
or 0 when no record exists. -/
theorem C5_cursor_amended :
    (∀ (t : Table) (d : List (String × Value)),
      (∀ rec ∈ allRecs t, rec.r ≤ t.currentRow) →
      (∀ rec ∈ allRecs (insert1 t d).1, rec.r ≤ (insert1 t d).1.currentRow)) ∧
    (∀ (t : Table) (d : List (String × Value)),
      (insert1 t d).2 = none →
      ∃ rec ∈ allRecs (insert1 t d).1, rec.r = (insert1 t d).1.currentRow) ∧
    (∀ (t : Table) (rowId : Int) (rec : Rec),
      rec ∈ allRecs (deleteRow t rowId).1 → rec ∈ allRecs t) ∧
    (∀ t : Table, calculateCurrentRow t =
      (Option.map Rec.r (List.getLast? (tableRecsAsc t))).getD 0) := by
  refine ⟨?_, ?_, ?_, ?_⟩
  · intro t d hub rec
    unfold insert1
    split
    · exact hub rec
    · split
      · exact hub rec
      · simp only []
        split
        · intro hrec
          dsimp only at hrec ⊢
          rw [allRecs, mem_filesRecs_appendLine] at hrec
          rcases hrec with h | h
          · have := hub rec h
            omega
          · subst h
            simp
        · intro hrec
          dsimp only at hrec ⊢
          have := hub rec hrec
          omega
  · intro t d hsucc
    unfold insert1 at hsucc ⊢
    split at hsucc
    · simp at hsucc
    · next r heq =>
        simp only [heq]
        split at hsucc
        · simp at hsucc
        · next hne =>
            rw [if_neg hne]
            simp only [] at hsucc ⊢
            split at hsucc
            · next hmax =>
                rw [if_pos hmax]
                dsimp only
                refine ⟨⟨t.currentRow + 1, r⟩, ?_, rfl⟩
                rw [allRecs, mem_filesRecs_appendLine]
                exact Or.inr rfl
            · simp at hsucc
  · intro t rowId rec hrec
    simp only [deleteRow, modifyDataFile] at hrec
    cases hpg : getPage t.files (pageKey t.rowsPerPage rowId) with
    | none => rw [hpg] at hrec; exact hrec
    | some pg =>
        rw [hpg] at hrec
        simp only [allRecs] at hrec ⊢
        rcases mem_filesRecs_putPage _ _ _ _ hrec with h | h
        · exact mem_of_getPage _ _ _ _
            (mem_pageRecs_rewriteLines_delete _ _ _ h) hpg
        · exact h
  · intro t
    rw [calculateCurrentRow, descKeys, calcLoop_eq_calcFind, calcFind_reverse]
    rfl

/-- Witness for the amended C5 at concrete states: the upper bound and the
attained equality after inserting into the empty fixture, delete-row
record containment, and the open-time recomputation on the two-row
fixture. -/
theorem C5_cursor_amended_witness :
    (∀ rec ∈ allRecs (insert1 tEmpty rowA).1,
      rec.r ≤ (insert1 tEmpty rowA).1.currentRow) ∧
    (∃ rec ∈ allRecs (insert1 tEmpty rowA).1,
      rec.r = (insert1 tEmpty rowA).1.currentRow) ∧
    calculateCurrentRow tTwo =
      (Option.map Rec.r (List.getLast? (tableRecsAsc tTwo))).getD 0 := by
  have h := C5_cursor_amended
  refine ⟨h.1 tEmpty rowA ?_, h.2.1 tEmpty rowA rfl, h.2.2.2 tTwo⟩
  intro rec hrec
  simp [allRecs, tEmpty, filesRecs] at hrec

end C5

namespace MicroPyDb

/-! ## Replay lemmas for vacuum -/

theorem insert1_clean (t : Table) (d : RowData)
    (hscrub : scrubData t.cols d true = Except.ok d)
    (hne : d.isEmpty = false)
    (hmax : t.currentRow + 1 < t.maxRows) :
    insert1 t d =
      ({ t with
          currentRow := t.currentRow + 1,
          files := (appendLine t.files (pageKey t.rowsPerPage (t.currentRow + 1))
            (some ⟨t.currentRow + 1, d⟩)) }, none) := by
  simp only [insert1, hscrub, hne, Bool.false_eq_true, if_false]
  simp only [if_pos hmax]

theorem replayDs_clean (P : Int) : ∀ (ds : List RowData) (t : Table),
    t.rowsPerPage = P →
    (∀ d ∈ ds, scrubData t.cols d true = Except.ok d ∧ d.isEmpty = false) →
    t.currentRow + ds.length < t.maxRows →
    replayDs t ds =
      ({ t with
          currentRow := t.currentRow + ds.length,
          files := (cleanFilesAux P t.currentRow ds t.files) }, none)
  | [], t, hp, _, _ => by
      simp [replayDs, cleanFilesAux]
  | d :: rest, t, hp, hall, hmax => by
      have hd := hall d (by simp)
      have hlen1 : (1 : Int) ≤ ((d :: rest).length : Int) := by
        simp only [List.length_cons]
        push_cast
        omega
      have hstep : t.currentRow + 1 < t.maxRows := by omega
      rw [replayDs, insert1_clean t d hd.1 hd.2 hstep]
      show replayDs _ rest = _
      rw [replayDs_clean P rest
        ({ t with
            currentRow := t.currentRow + 1,
            files := (appendLine t.files (pageKey t.rowsPerPage (t.currentRow + 1))
              (some ⟨t.currentRow + 1, d⟩)) }) (by simpa using hp)
        (fun x hx => hall x (by simp [hx]))
        (by
          dsimp only
          simp only [List.length_cons] at hmax
          push_cast at hmax ⊢
          omega)]
      dsimp only
      simp only [cleanFilesAux, hp]
      have harith : t.currentRow + 1 + (rest.length : Int) =
          t.currentRow + ((d :: rest).length : Int) := by
        simp only [List.length_cons]
        push_cast
        ring
      rw [harith]

theorem replayPage_eq_replayDs (recs : List Rec) : ∀ t : Table,
    replayPage t recs = replayDs t (List.map Rec.d recs) := by
  induction recs with
  | nil => intro t; rfl
  | cons rec rest ih =>
      intro t
      simp only [replayPage, List.map_cons, replayDs]
      cases insert1 t rec.d with
      | mk t1 e =>
          cases e with
          | none => exact ih t1
          | some err => rfl

theorem replayDs_append (xs ys : List RowData) : ∀ t : Table,
    replayDs t (xs ++ ys) =
      match replayDs t xs with
      | (t1, none) => replayDs t1 ys
      | (t1, some e) => (t1, some e) := by
  induction xs with
  | nil => intro t; rfl
  | cons d rest ih =>
      intro t
      simp only [List.cons_append, replayDs]
      cases insert1 t d with
      | mk t1 e =>
          cases e with
          | none => exact ih t1
          | some err => rfl

/-- The payloads vacuum replays, page by page, flattened. -/
theorem vacuumLoop_of_replay : ∀ (sources : List Page) (t T : Table),
    replayDs t (List.foldr
      (fun pg acc => List.map Rec.d (pageRecs pg) ++ acc) [] sources) =
        (T, none) →
    vacuumLoop t sources = (T, [], none) := by
  intro sources
  induction sources with
  | nil =>
      intro t T h
      simp only [replayDs] at h
      simp only [vacuumLoop]
      rw [(Prod.mk.injEq _ _ _ _).mp h |>.1]
  | cons pg rest ih =>
      intro t T h
      simp only [List.foldr] at h
      rw [replayDs_append] at h
      simp only [vacuumLoop, replayPage_eq_replayDs]
      cases hfst : replayDs t (List.map Rec.d (pageRecs pg)) with
      | mk t1 e =>
          rw [hfst] at h
          cases e with
          | none => exact ih t1 T h
          | some err => simp at h

theorem flat_sources (fs : Files) : ∀ ks : List Int,
    List.foldr (fun pg acc => List.map Rec.d (pageRecs pg) ++ acc) []
      (List.map (fun k => (getPage fs k).getD []) ks) =
    List.map Rec.d (keysRecs fs ks) := by
  intro ks
  induction ks with
  | nil => rfl
  | cons k ks ih => simp [keysRecs_cons, ih]

end MicroPyDb

namespace MicroPyDb

/-! ## Arithmetic of page keys for consecutively filled tables -/

theorem pageKey_nat (P : Nat) (hP : 1 ≤ P) (n : Nat) (hn : 1 ≤ n) :
    pageKey (P : Int) (n : Int) = ((P * ((n - 1) / P) + 1 : Nat) : Int) := by
  obtain ⟨m, rfl⟩ : ∃ m, n = m + 1 := ⟨n - 1, by omega⟩
  have hq := Nat.div_add_mod m P
  set q := m / P with hqdef
  set r := m % P with hrdef
  have hrP : r < P := Nat.mod_lt m (by omega)
  have hmod : Int.emod ((m + 1 : Nat) : Int) (P : Int) =
      (((m + 1) % P : Nat) : Int) := rfl
  have hdiv : Int.ediv ((m + 1 : Nat) : Int) (P : Int) =
      (((m + 1) / P : Nat) : Int) := rfl
  have hqP : m + 1 = r + 1 + P * q := by omega
  by_cases hcase : r + 1 = P
  · have hfull : m + 1 = (q + 1) * P := by
      have h1 : (q + 1) * P = q * P + P := Nat.succ_mul q P
      have h2 : q * P = P * q := Nat.mul_comm q P
      omega
    have hmodv : (m + 1) % P = 0 := by
      rw [hfull]
      simp [Nat.mul_mod_left]
    have hdivv : (m + 1) / P = q + 1 := by
      rw [hfull]
      exact Nat.mul_div_cancel _ (by omega)
    simp only [pageKey, pageRange, hmod, hmodv, Nat.cast_zero, beq_self_eq_true,
      if_true, hdiv, hdivv]
    have hsimp : ((m + 1 - 1 : Nat) : Nat) = m := by omega
    rw [hsimp, ← hqdef]
    push_cast
    ring
  · have hmodv : (m + 1) % P = r + 1 := by
      rw [hqP, Nat.add_mul_mod_self_left]
      exact Nat.mod_eq_of_lt (by omega)
    have hdivv : (m + 1) / P = q := by
      rw [hqP, Nat.add_mul_div_left _ _ (by omega : 0 < P)]
      rw [Nat.div_eq_of_lt (by omega)]
      omega
    have hne : (Int.emod ((m + 1 : Nat) : Int) (P : Int) == 0) = false := by
      rw [hmod, hmodv]
      simp
      omega
    simp only [pageKey, pageRange, hne, Bool.false_eq_true, if_false, hdiv, hdivv]
    have hsimp : ((m + 1 - 1 : Nat) : Nat) = m := by omega
    rw [hsimp, ← hqdef]
    push_cast
    ring

end MicroPyDb


namespace MicroPyDb

theorem buildRecs_snoc (d : RowData) : ∀ (xs : List RowData) (c : Int),
    buildRecs c (xs ++ [d]) =
      buildRecs c xs ++ [some ⟨c + xs.length + 1, d⟩]
  | [], c => by simp [buildRecs]
  | x :: xs, c => by
      have ih := buildRecs_snoc d xs (c + 1)
      have harith : c + 1 + (xs.length : Int) + 1 =
          c + ((xs.length + 1 : Nat) : Int) + 1 := by
        push_cast
        ring
      simp only [List.cons_append, buildRecs, List.append_eq, ih, harith,
        List.length_cons]

theorem cleanAux_snoc (P : Int) (d : RowData) :
    ∀ (ds : List RowData) (cr : Int) (fs : Files),
    cleanFilesAux P cr (ds ++ [d]) fs =
      appendLine (cleanFilesAux P cr ds fs)
        (pageKey P (cr + ds.length + 1)) (some ⟨cr + ds.length + 1, d⟩)
  | [], cr, fs => by
      simp [cleanFilesAux]
  | d0 :: ds, cr, fs => by
      have ih := cleanAux_snoc P d ds (cr + 1)
      have harith : cr + 1 + (ds.length : Int) + 1 =
          cr + ((ds.length + 1 : Nat) : Int) + 1 := by
        push_cast
        ring
      simp only [List.cons_append, cleanFilesAux, List.append_eq, ih, harith,
        List.length_cons]

end MicroPyDb

namespace MicroPyDb

theorem chunk_snoc_nil (P : Nat) (hP : 1 ≤ P) (fuel : Nat) (a : Nat) (d : RowData) :
    appendLine (chunkFiles P fuel (a * P + 1) [])
      ((a * P + P * (([] : List RowData).length / P) + 1 : Nat) : Int)
      (some ⟨((a * P + ([] : List RowData).length + 1 : Nat) : Int), d⟩) =
    chunkFiles P (fuel + 1) (a * P + 1) [d] := by
  have hch : chunkFiles P fuel (a * P + 1) ([] : List RowData) = [] := by
    cases fuel <;> rfl
  rw [hch]
  simp only [appendLine, chunkFiles]
  have htake : List.take P [d] = [d] := List.take_of_length_le (by simp; omega)
  have hdrop : List.drop P [d] = [] := List.drop_eq_nil_of_le (by simp; omega)
  rw [htake, hdrop]
  have hch2 : chunkFiles P fuel (a * P + 1 + P) ([] : List RowData) = [] := by
    cases fuel <;> rfl
  rw [hch2]
  simp only [buildRecs, List.length_nil, Nat.zero_div, Nat.mul_zero, Nat.add_zero]
  have harith : ((a * P + 1 : Nat) : Int) - 1 + 1 = ((a * P + 1 : Nat) : Int) := by
    ring
  rw [harith]

end MicroPyDb

namespace MicroPyDb

theorem chunk_snoc (P : Nat) (hP : 1 ≤ P) :
    ∀ (fuel : Nat) (ds : List RowData) (a : Nat) (d : RowData),
    ds.length ≤ fuel →
    appendLine (chunkFiles P fuel (a * P + 1) ds)
      ((a * P + P * (ds.length / P) + 1 : Nat) : Int)
      (some ⟨((a * P + ds.length + 1 : Nat) : Int), d⟩) =
    chunkFiles P (fuel + 1) (a * P + 1) (ds ++ [d]) := by
  intro fuel
  induction fuel with
  | zero =>
      intro ds a d hlen
      have hds : ds = [] := List.length_eq_zero.mp (by omega)
      subst hds
      exact chunk_snoc_nil P hP 0 a d
  | succ fuel ih =>
      intro ds a d hlen
      cases ds with
      | nil => exact chunk_snoc_nil P hP (fuel + 1) a d
      | cons d0 rest =>
          by_cases hfull : P ≤ (d0 :: rest).length
          · have hkeyne : (((a * P + 1 : Nat) : Int) ==
                ((a * P + P * ((d0 :: rest).length / P) + 1 : Nat) : Int)) = false := by
              have hdiv1 : 1 ≤ (d0 :: rest).length / P :=
                (Nat.one_le_div_iff (by omega)).mpr hfull
              have hge : 1 * 1 ≤ P * ((d0 :: rest).length / P) :=
                Nat.mul_le_mul (by omega) hdiv1
              simp only [beq_eq_false_iff_ne, ne_eq, Nat.cast_inj]
              omega
            have hstart : a * P + 1 + P = (a + 1) * P + 1 := by ring
            have hlen2 : (List.drop P (d0 :: rest)).length ≤ fuel := by
              simp only [List.length_drop]
              simp only [List.length_cons] at hlen ⊢
              omega
            have hkey2 : (a + 1) * P + P * ((List.drop P (d0 :: rest)).length / P) + 1
                = a * P + P * ((d0 :: rest).length / P) + 1 := by
              simp only [List.length_drop]
              rw [Nat.div_eq_sub_div (by omega : 0 < P) hfull, Nat.mul_succ,
                Nat.succ_mul]
              omega
            have hid2 : (a + 1) * P + (List.drop P (d0 :: rest)).length + 1
                = a * P + (d0 :: rest).length + 1 := by
              simp only [List.length_drop]
              have hsm : (a + 1) * P = a * P + P := Nat.succ_mul a P
              omega
            have hih := ih (List.drop P (d0 :: rest)) (a + 1) d hlen2
            rw [hkey2, hid2] at hih
            have htk : List.take P (d0 :: (rest ++ [d])) = List.take P (d0 :: rest) := by
              rw [← List.cons_append]
              exact List.take_append_of_le_length hfull
            have hdr : List.drop P (d0 :: (rest ++ [d])) =
                List.drop P (d0 :: rest) ++ [d] := by
              rw [← List.cons_append]
              exact List.drop_append_of_le_length hfull
            simp only [List.cons_append, List.append_eq, chunkFiles]
            rw [appendLine, if_neg (by rw [hkeyne]; exact Bool.false_ne_true)]
            rw [htk, hdr, hstart, hih]
          · have hlt : (d0 :: rest).length < P := by omega
            have hl0 : rest.length + 1 < P := by simpa using hlt
            have hdiv0 : (d0 :: rest).length / P = 0 := Nat.div_eq_of_lt hlt
            have htake : List.take P (d0 :: rest) = d0 :: rest :=
              List.take_of_length_le (by simp only [List.length_cons]; omega)
            have hdrop : List.drop P (d0 :: rest) = [] :=
              List.drop_eq_nil_of_le (by simp only [List.length_cons]; omega)
            have htake2 : List.take P (d0 :: (rest ++ [d])) = d0 :: (rest ++ [d]) :=
              List.take_of_length_le (by
                simp only [List.length_cons, List.length_append, List.length_nil]
                omega)
            have hdrop2 : List.drop P (d0 :: (rest ++ [d])) = [] :=
              List.drop_eq_nil_of_le (by
                simp only [List.length_cons, List.length_append, List.length_nil]
                omega)
            simp only [List.cons_append, List.append_eq, chunkFiles]
            rw [hdiv0]
            simp only [Nat.mul_zero, Nat.add_zero]
            rw [appendLine, if_pos (by simp)]
            rw [htake, hdrop, htake2, hdrop2]
            have hch : chunkFiles P fuel (a * P + 1 + P) ([] : List RowData) = [] := by
              cases fuel <;> rfl
            have hch2 : chunkFiles P (fuel + 1) (a * P + 1 + P) ([] : List RowData) = [] := by
              rfl
            rw [hch, hch2]
            rw [show d0 :: (rest ++ [d]) = (d0 :: rest) ++ [d] from rfl]
            rw [buildRecs_snoc]
            have harith : ((a * P + 1 : Nat) : Int) - 1 + ((d0 :: rest).length : Int) + 1 =
                ((a * P + (d0 :: rest).length + 1 : Nat) : Int) := by
              push_cast
              ring
            rw [harith]

end MicroPyDb

namespace MicroPyDb

theorem clean_eq_chunk (P : Nat) (hP : 1 ≤ P) (ds : List RowData) :
    cleanFilesAux (P : Int) 0 ds [] = chunkFiles P ds.length 1 ds := by
  induction ds using List.reverseRecOn with
  | nil => rfl
  | append_singleton ds d ihds =>
      rw [cleanAux_snoc, ihds]
      have hcs := chunk_snoc P hP ds.length ds 0 d (le_refl _)
      simp only [Nat.zero_mul, Nat.zero_add] at hcs
      have hkey : pageKey (P : Int) (0 + (ds.length : Int) + 1) =
          ((P * (ds.length / P) + 1 : Nat) : Int) := by
        have h1 : (0 : Int) + (ds.length : Int) + 1 =
            ((ds.length + 1 : Nat) : Int) := by
          push_cast
          ring
        rw [h1, pageKey_nat P hP (ds.length + 1) (by omega)]
        simp only [Nat.add_sub_cancel]
      have hid : (0 : Int) + (ds.length : Int) + 1 =
          ((ds.length + 1 : Nat) : Int) := by
        push_cast
        ring
      rw [hkey, hid]
      have hlenapp : (ds ++ [d]).length = ds.length + 1 := by
        simp
      rw [hlenapp]
      exact hcs

theorem chunk_length (P : Nat) (hP : 1 ≤ P) :
    ∀ (fuel : Nat) (ds : List RowData) (start : Nat), ds.length ≤ fuel →
    (chunkFiles P fuel start ds).length = (ds.length + P - 1) / P := by
  intro fuel
  induction fuel with
  | zero =>
      intro ds start hlen
      have hds : ds = [] := List.length_eq_zero.mp (by omega)
      subst hds
      simp only [chunkFiles, List.length_nil]
      rw [Nat.div_eq_of_lt (by omega)]
  | succ fuel ih =>
      intro ds start hlen
      cases ds with
      | nil =>
          simp only [chunkFiles, List.length_nil]
          rw [Nat.div_eq_of_lt (by omega)]
      | cons d0 rest =>
          simp only [chunkFiles, List.length_cons]
          by_cases hfull : P ≤ (d0 :: rest).length
          · rw [ih (List.drop P (d0 :: rest)) (start + P) (by
              simp only [List.length_drop]
              simp only [List.length_cons] at hlen ⊢
              omega)]
            simp only [List.length_drop, List.length_cons]
            simp only [List.length_cons] at hfull
            have hsplit : rest.length + 1 + P - 1 = (rest.length + 1 - P + P - 1) + P := by
              omega
            rw [hsplit, Nat.add_div_right _ (by omega : 0 < P)]
          · simp only [List.length_cons] at hfull
            have hdrop : List.drop P (d0 :: rest) = [] :=
              List.drop_eq_nil_of_le (by simp only [List.length_cons]; omega)
            rw [hdrop]
            have hch : chunkFiles P fuel (start + P) ([] : List RowData) = [] := by
              cases fuel <;> rfl
            rw [hch]
            simp only [List.length_cons, List.length_nil]
            have hdiv : (rest.length + 1 + P - 1) / P = 1 :=
              Nat.div_eq_of_lt_le (by omega) (by omega)
            rw [hdiv]

theorem pageRecs_buildRecs : ∀ (ds : List RowData) (c : Int),
    pageRecs (buildRecs c ds) = idRecs (c + 1) ds
  | [], c => rfl
  | d :: rest, c => by
      simp only [buildRecs, pageRecs_cons_some, idRecs, pageRecs_buildRecs rest (c + 1)]

theorem idRecs_append : ∀ (xs ys : List RowData) (s : Int),
    idRecs s (xs ++ ys) = idRecs s xs ++ idRecs (s + xs.length) ys
  | [], ys, s => by simp [idRecs]
  | x :: xs, ys, s => by
      simp only [List.cons_append, List.append_eq, idRecs,
        idRecs_append xs ys (s + 1), List.length_cons]
      have harith : s + 1 + (xs.length : Int) = s + ((xs.length + 1 : Nat) : Int) := by
        push_cast
        ring
      rw [harith]

theorem filesRecs_chunk (P : Nat) (hP : 1 ≤ P) :
    ∀ (fuel : Nat) (ds : List RowData) (start : Nat), ds.length ≤ fuel →
    filesRecs (chunkFiles P fuel start ds) = idRecs (start : Int) ds := by
  intro fuel
  induction fuel with
  | zero =>
      intro ds start hlen
      have hds : ds = [] := List.length_eq_zero.mp (by omega)
      subst hds
      rfl
  | succ fuel ih =>
      intro ds start hlen
      cases ds with
      | nil => rfl
      | cons d0 rest =>
          simp only [chunkFiles, filesRecs_cons]
          rw [ih (List.drop P (d0 :: rest)) (start + P) (by
            simp only [List.length_drop]
            simp only [List.length_cons] at hlen ⊢
            omega)]
          rw [pageRecs_buildRecs]
          have hsub : ((start : Nat) : Int) - 1 + 1 = ((start : Nat) : Int) := by
            ring
          rw [hsub]
          by_cases hfull : P ≤ (d0 :: rest).length
          · have htk : (List.take P (d0 :: rest)).length = P :=
              List.length_take_of_le hfull
            conv_rhs => rw [← List.take_append_drop P (d0 :: rest)]
            rw [idRecs_append, htk]
            have hc : (start : Int) + ((P : Nat) : Int) = (((start + P : Nat)) : Int) := by
              push_cast
              ring
            rw [hc]
          · have hdrop : List.drop P (d0 :: rest) = [] :=
              List.drop_eq_nil_of_le (by omega)
            have htake : List.take P (d0 :: rest) = d0 :: rest :=
              List.take_of_length_le (by omega)
            rw [hdrop, htake]
            simp [idRecs]

end MicroPyDb

namespace MicroPyDb

theorem chunk_keys_lb (P : Nat) :
    ∀ (fuel : Nat) (ds : List RowData) (start : Nat) (key : Int),
    key ∈ List.map Prod.fst (chunkFiles P fuel start ds) →
    ((start : Nat) : Int) ≤ key := by
  intro fuel
  induction fuel with
  | zero =>
      intro ds start key h
      simp [chunkFiles] at h
  | succ fuel ih =>
      intro ds start key h
      cases ds with
      | nil => simp [chunkFiles] at h
      | cons d0 rest =>
          simp only [chunkFiles, List.map_cons, List.mem_cons] at h
          rcases h with h | h
          · omega
          · have := ih (List.drop P (d0 :: rest)) (start + P) key h
            have hc : ((start : Nat) : Int) ≤ ((start + P : Nat) : Int) := by
              push_cast
              omega
            omega

theorem chunk_keys_pairwise (P : Nat) (hP : 1 ≤ P) :
    ∀ (fuel : Nat) (ds : List RowData) (start : Nat),
    List.Pairwise (fun a b => a < b)
      (List.map Prod.fst (chunkFiles P fuel start ds)) := by
  intro fuel
  induction fuel with
  | zero =>
      intro ds start
      simp [chunkFiles]
  | succ fuel ih =>
      intro ds start
      cases ds with
      | nil => simp [chunkFiles]
      | cons d0 rest =>
          simp only [chunkFiles, List.map_cons]
          refine List.Pairwise.cons ?_ (ih (List.drop P (d0 :: rest)) (start + P))
          intro key hkey
          have hlb := chunk_keys_lb P fuel (List.drop P (d0 :: rest)) (start + P)
            key hkey
          have : ((start : Nat) : Int) < ((start + P : Nat) : Int) := by
            push_cast
            omega
          omega

theorem insertSorted_of_le (x : Int) (l : List Int)
    (h : ∀ y ∈ l, x ≤ y) : insertSorted x l = x :: l := by
  cases l with
  | nil => rfl
  | cons y ys =>
      simp only [insertSorted]
      rw [if_pos (h y (by simp))]

theorem sortKeys_of_sorted (l : List Int)
    (h : List.Pairwise (fun a b => a ≤ b) l) : sortKeys l = l := by
  induction l with
  | nil => rfl
  | cons x xs ih =>
      rcases List.pairwise_cons.mp h with ⟨hx, hxs⟩
      show insertSorted x (sortKeys xs) = x :: xs
      rw [ih hxs]
      exact insertSorted_of_le x xs hx

theorem keysRecs_skip (fs : Files) (k : Int) (pg : Page) :
    ∀ ks : List Int, (∀ k' ∈ ks, k' ≠ k) →
    keysRecs ((k, pg) :: fs) ks = keysRecs fs ks := by
  intro ks
  induction ks with
  | nil => intro _; rfl
  | cons k0 ks ih =>
      intro h
      have hne : k0 ≠ k := h k0 (by simp)
      have hb : (k0 == k) = false := by simp [hne]
      simp only [keysRecs_cons, getPage, List.lookup, hb, Bool.false_eq_true,
        if_false]
      rw [ih fun k' hk => h k' (by simp [hk])]

theorem keysRecs_self (fs : Files)
    (h : List.Pairwise (fun a b => a < b) (List.map Prod.fst fs)) :
    keysRecs fs (List.map Prod.fst fs) = filesRecs fs := by
  induction fs with
  | nil => rfl
  | cons kv rest ih =>
      obtain ⟨k, pg⟩ := kv
      simp only [List.map_cons] at h
      rcases List.pairwise_cons.mp h with ⟨hk, hrest⟩
      simp only [List.map_cons, keysRecs_cons, filesRecs_cons]
      have hself : getPage ((k, pg) :: rest) k = some pg := by
        simp [getPage, List.lookup]
      rw [hself]
      have hskip : keysRecs ((k, pg) :: rest) (List.map Prod.fst rest) =
          keysRecs rest (List.map Prod.fst rest) := by
        apply keysRecs_skip
        intro k' hk'
        have := hk k' hk'
        omega
      rw [hskip, ih hrest]
      rfl

end MicroPyDb

section C4

open MicroPyDb MicroPyDb.Ex

/-- Counterexample to claim C4: a table whose single live row carries a
null-filled column (produced by a single-row insert that omitted the
password column).  Vacuum replays the payload through the insert path,
whose validation rejects the null, so vacuum raises TypeMismatch instead
of compacting, and the renamed .vacu source file is left behind. -/
theorem C4_vacuum_null_payload_fails :
    tableRecsAsc tNull =
      [⟨1, [("name", Value.vstr "x"), ("password", Value.vnull)]⟩] ∧
    (vacuum tNull).2.2 = some (DBError.typeMismatch "password") ∧
    (vacuum tNull).2.1 ≠ [] := by
  refine ⟨rfl, rfl, by decide⟩

/-- Claim C4 as amended: provided every live payload passes schema
validation unchanged (in particular no null-filled column) and the live
row count is strictly below max_rows, vacuum replays the live payloads in
ascending original page order through the single-row insert path and
succeeds: no error, no .vacu source left, current_row equals the live row
count L, exactly ceil(L / rows_per_page) page files remain, and the
records, read back in ascending page order, carry contiguous row ids
1..L with the payloads intact and in order. -/
theorem C4_vacuum_amended (t : Table) (P : Nat) (hP : 1 ≤ P)
    (hpr : t.rowsPerPage = (P : Int))
    (hall : ∀ d ∈ List.map Rec.d (tableRecsAsc t),
      scrubData t.cols d true = Except.ok d ∧ d.isEmpty = false)
    (hmax : (((tableRecsAsc t).length : Nat) : Int) < t.maxRows) :
    (vacuum t).2.2 = none ∧
    (vacuum t).2.1 = [] ∧
    (vacuum t).1.currentRow = ((tableRecsAsc t).length : Int) ∧
    (vacuum t).1.files.length = ((tableRecsAsc t).length + P - 1) / P ∧
    tableRecsAsc (vacuum t).1 = idRecs 1 (List.map Rec.d (tableRecsAsc t)) := by
  have hlen : (List.map Rec.d (tableRecsAsc t)).length = (tableRecsAsc t).length := by
    simp
  have hrep := replayDs_clean (P : Int) (List.map Rec.d (tableRecsAsc t))
    { t with currentRow := 0, files := [] }
    (by simpa using hpr)
    (by simpa using hall)
    (by simp only []; rw [hlen]; simpa using hmax)
  have hflat := flat_sources t.files (ascKeys t.files)
  have hloop := vacuumLoop_of_replay
    (List.map (fun k => (getPage t.files k).getD []) (ascKeys t.files))
    { t with currentRow := 0, files := [] }
    ({ t with currentRow := 0, files := [] } |> fun t0 =>
      { t0 with
          currentRow := t0.currentRow + (List.map Rec.d (tableRecsAsc t)).length,
          files := (cleanFilesAux (P : Int) t0.currentRow
            (List.map Rec.d (tableRecsAsc t)) t0.files) })
    (by rw [hflat]; exact hrep)
  have hvac : vacuum t =
      ({ t with
          currentRow := 0 + ((List.map Rec.d (tableRecsAsc t)).length : Int),
          files := (cleanFilesAux (P : Int) 0
            (List.map Rec.d (tableRecsAsc t)) []) }, [], none) := by
    unfold vacuum
    exact hloop
  rw [hvac]
  have hchunk : cleanFilesAux (P : Int) 0 (List.map Rec.d (tableRecsAsc t)) [] =
      chunkFiles P ((tableRecsAsc t).length) 1 (List.map Rec.d (tableRecsAsc t)) := by
    rw [clean_eq_chunk P hP, hlen]
  refine ⟨rfl, rfl, ?_, ?_, ?_⟩
  · rw [hlen]
    push_cast
    ring
  · rw [hchunk, chunk_length P hP _ _ 1 (by rw [hlen])]
    rw [hlen]
  · conv_lhs => rw [tableRecsAsc]
    rw [hchunk]
    have hpw := chunk_keys_pairwise P hP ((tableRecsAsc t).length)
      (List.map Rec.d (tableRecsAsc t)) 1
    have hasc : ascKeys (chunkFiles P ((tableRecsAsc t).length) 1
        (List.map Rec.d (tableRecsAsc t))) =
        List.map Prod.fst (chunkFiles P ((tableRecsAsc t).length) 1
          (List.map Rec.d (tableRecsAsc t))) := by
      rw [ascKeys]
      exact sortKeys_of_sorted _ (hpw.imp (fun h => le_of_lt h))
    rw [hasc, keysRecs_self _ hpw]
    rw [filesRecs_chunk P hP _ _ 1 (by rw [hlen])]
    norm_num

/-- Witness for the amended C4 at a concrete three-row table with
rows_per_page = 2: vacuum succeeds, two pages remain and the records are
renumbered 1..3 with payloads kept. -/
theorem C4_vacuum_amended_witness :
    (1 ≤ 2) ∧ tVac.rowsPerPage = ((2 : Nat) : Int) ∧
    ((vacuum tVac).2.2 = none ∧ (vacuum tVac).2.1 = [] ∧
      (vacuum tVac).1.currentRow = ((tableRecsAsc tVac).length : Int) ∧
      (vacuum tVac).1.files.length = ((tableRecsAsc tVac).length + 2 - 1) / 2 ∧
      tableRecsAsc (vacuum tVac).1 = idRecs 1 (List.map Rec.d (tableRecsAsc tVac))) :=
  ⟨by norm_num, rfl,
    C4_vacuum_amended tVac 2 (by norm_num) rfl (by decide) (by decide)⟩

end C4
